import Mathlib

/-!
Verification development for the fund-ledger reconciliation script
(`src/ledger.py`).  The script is embedded shallowly:

* `convert` models the per-scalar closure inside `parse_mixed_date`
  (lines 6–33), with the external generic date parser (`pd.to_datetime`
  on a free-form string) taken as a parameter `gp`;
* `calcAnnualizedReturn` models `calc_annualized_return` (lines 103–110)
  over an abstract Python numeric domain that distinguishes `None`,
  `nan`, complex results and symbolic real powers;
* `leftMerge` models the `pd.merge(..., how='left', on='产品代码')`
  call (line 88);
* `navWalk` / `assignNav` model `assign_nav_disclosure_dates`
  (lines 116–144): the per-product chronological walk and the
  scatter of emitted dates back to original row positions;
* `Frame` operations model the guarded column transforms
  (lines 98–100, 171–173, 180–182) and the unguarded final column
  selection (line 158), with column access in an error monad so that
  a raised `KeyError` is visible as `.error`.

Dates are day serials (days since 1970-01-01); `daysFromCivil` /
`civilFromDays` are the standard proleptic-Gregorian conversions.
-/

/-! ## Calendar arithmetic -/

/-- Day serial (days since 1970-01-01) of a proleptic-Gregorian civil date. -/
def daysFromCivil (y m d : Int) : Int :=
  let y' := if m ≤ 2 then y - 1 else y
  let era := Int.fdiv y' 400
  let yoe := y' - era * 400
  let mp := if 2 < m then m - 3 else m + 9
  let doy := Int.fdiv (153 * mp + 2) 5 + d - 1
  let doe := yoe * 365 + Int.fdiv yoe 4 - Int.fdiv yoe 100 + doy
  era * 146097 + doe - 719468

/-- Inverse of `daysFromCivil`: civil date `(y, m, d)` of a day serial. -/
def civilFromDays (z : Int) : Int × Int × Int :=
  let z' := z + 719468
  let era := Int.fdiv z' 146097
  let doe := z' - era * 146097
  let yoe := Int.fdiv (doe - Int.fdiv doe 1460 + Int.fdiv doe 36524 - Int.fdiv doe 146096) 365
  let y := yoe + era * 400
  let doy := doe - (365 * yoe + Int.fdiv yoe 4 - Int.fdiv yoe 100)
  let mp := Int.fdiv (5 * doy + 2) 153
  let d := doy - Int.fdiv (153 * mp + 2) 5 + 1
  let m := if mp < 10 then mp + 3 else mp - 9
  (if m ≤ 2 then y + 1 else y, m, d)

def isLeapYear (y : Int) : Bool :=
  (y % 4 == 0 && y % 100 != 0) || y % 400 == 0

def daysInMonth (y m : Int) : Int :=
  if m == 2 then (if isLeapYear y then 29 else 28)
  else if m == 4 || m == 6 || m == 9 || m == 11 then 30
  else 31

def civilValid (y m d : Int) : Bool :=
  1 ≤ m && m ≤ 12 && 1 ≤ d && d ≤ daysInMonth y m

/-- A pandas `Timestamp`: a day serial plus a time-of-day in seconds. -/
structure Timestamp where
  days : Int
  secs : Nat
deriving DecidableEq, Repr

instance {ε α : Type} [DecidableEq ε] [DecidableEq α] : DecidableEq (Except ε α)
  | .error e, .error f =>
    if h : e = f then isTrue (by rw [h])
    else isFalse (by intro hh; injection hh; exact h (by assumption))
  | .error _, .ok _ => isFalse (by intro h; cases h)
  | .ok _, .error _ => isFalse (by intro h; cases h)
  | .ok x, .ok y =>
    if h : x = y then isTrue (by rw [h])
    else isFalse (by intro hh; injection hh; exact h (by assumption))

/-- Model of `.dt.floor("D")`: truncate a timestamp to day resolution. -/
def floorD (t : Timestamp) : Int :=
  t.days + Int.fdiv (Int.ofNat t.secs) 86400

/-- Earliest day whose midnight is a representable `pd.Timestamp`
(`pd.Timestamp.min` is 1677-09-21T00:12:43, so midnight 1677-09-21 is out). -/
def tsMinDay : Int := daysFromCivil 1677 9 22

/-- Latest day whose midnight is a representable `pd.Timestamp`
(`pd.Timestamp.max` is 2262-04-11T23:47:16). -/
def tsMaxDay : Int := daysFromCivil 2262 4 11

/-- The Excel serial-date epoch used at line 24 (`origin="1899-12-30"`). -/
def excelEpoch : Int := daysFromCivil 1899 12 30

/-! ## Text utilities (Python strings are modelled as `List Char`) -/

abbrev Chars := List Char

/-- Python `str.strip()`. -/
def strip (s : Chars) : Chars :=
  ((s.dropWhile Char.isWhitespace).reverse.dropWhile Char.isWhitespace).reverse

def allDigits (s : Chars) : Bool := s.all Char.isDigit

/-- Test `re.fullmatch(r"\d\x7b8\x7d", text)` at line 16. -/
def matchesD8 (s : Chars) : Bool := s.length == 8 && allDigits s

/-- Test `re.fullmatch(r"\d\x7b4,6\x7d", text)` at line 22. -/
def matchesD46 (s : Chars) : Bool :=
  decide (4 ≤ s.length) && decide (s.length ≤ 6) && allDigits s

def digitVal (c : Char) : Nat := c.toNat - 48

/-- Numeric value of a digit string. -/
def digitsVal (s : Chars) : Nat := s.foldl (fun a c => 10 * a + digitVal c) 0

def natDigitsAux : Nat → Nat → List Nat
  | 0, _ => []
  | fuel + 1, n => if n < 10 then [n] else natDigitsAux fuel (n / 10) ++ [n % 10]

/-- The base-10 digits of a natural number, most significant first. -/
def natDigitsList (n : Nat) : List Nat := natDigitsAux (n + 1) n

def digitChar (d : Nat) : Char := Char.ofNat (48 + d)

/-- Python `str(n)` for a natural number. -/
def natChars (n : Nat) : Chars := (natDigitsList n).map digitChar

/-- Python `str(n)` for an integer. -/
def intChars (n : Int) : Chars :=
  if n < 0 then '-' :: natChars n.natAbs else natChars n.toNat

/-- Zero-padded decimal rendering, `k` characters wide. -/
def padChars (k : Nat) (n : Nat) : Chars :=
  List.replicate (k - (natChars n).length) '0' ++ natChars n

/-- Rendering `str(ts)` where `ts` is a day-resolution `pd.Timestamp`:
`"YYYY-MM-DD HH:MM:SS"`. -/
def renderTs (t : Timestamp) : Chars :=
  let c := civilFromDays t.days
  padChars 4 c.1.toNat ++ ('-' :: padChars 2 c.2.1.toNat) ++ ('-' :: padChars 2 c.2.2.toNat)
    ++ (' ' :: padChars 2 (t.secs / 3600)) ++ (':' :: padChars 2 (t.secs % 3600 / 60))
    ++ (':' :: padChars 2 (t.secs % 60))

/-! ## `parse_mixed_date` (ledger.py lines 6–33) -/

/-- An input scalar handed to the `convert` closure: missing (`None`/`NaT`),
a string, a Python integer, or an already-parsed `Timestamp`. -/
inductive RawValue where
  | null
  | str (s : Chars)
  | int (n : Int)
  | date (t : Timestamp)
deriving DecidableEq, Repr

/-- Model of `pd.isna(value)` restricted to the scalar domain above. -/
def pyIsNa : RawValue → Bool
  | .null => true
  | _ => false

/-- Model of `value == ""` (Python equality against the empty string). -/
def pyEqEmpty : RawValue → Bool
  | .str s => s.isEmpty
  | _ => false

/-- Python `str(value)`. -/
def pyStr : RawValue → Chars
  | .null => "NaT".toList
  | .str s => s
  | .int n => intChars n
  | .date t => renderTs t

/-- The first four digits of an 8-digit date string, read as the year. -/
def ymdY (s : Chars) : Int := Int.ofNat (digitsVal (s.take 4))

/-- Digits five and six of an 8-digit date string, read as the month. -/
def ymdM (s : Chars) : Int := Int.ofNat (digitsVal ((s.drop 4).take 2))

/-- The last two digits of an 8-digit date string, read as the day. -/
def ymdD (s : Chars) : Int := Int.ofNat (digitsVal (s.drop 6))

/-- Model of `pd.to_datetime(text, format="%Y%m%d")` (line 18): succeeds exactly on a
calendar-valid date within `pd.Timestamp` bounds, at midnight. -/
def ymdAttempt (s : Chars) : Except Unit Timestamp :=
  if civilValid (ymdY s) (ymdM s) (ymdD s)
      && decide (tsMinDay ≤ daysFromCivil (ymdY s) (ymdM s) (ymdD s))
      && decide (daysFromCivil (ymdY s) (ymdM s) (ymdD s) ≤ tsMaxDay)
  then .ok ⟨daysFromCivil (ymdY s) (ymdM s) (ymdD s), 0⟩ else .error ()

/-- Model of `pd.to_datetime(float(text), unit="D", origin="1899-12-30")` (line 24):
the Excel-style serial interpretation; raises (`.error`) when the resulting
timestamp is out of `pd.Timestamp` bounds. -/
def serialAttempt (n : Nat) : Except Unit Timestamp :=
  let s := excelEpoch + Int.ofNat n
  if decide (tsMinDay ≤ s) && decide (s ≤ tsMaxDay) then .ok ⟨s, 0⟩ else .error ()

/-- The final `pd.to_datetime(text)` attempt (line 29) with the surrounding
`try`/`except`: a generic-parser success is floored to day resolution, a
generic-parser exception yields `NaT` (`none`). -/
def genericStage (gp : Chars → Except Unit Timestamp) (t : Chars) : Option Int :=
  match gp t with
  | .ok ts => some (floorD ts)
  | .error _ => none

/-- The 4–6-digit serial stage (lines 22–26) followed by the generic stage. -/
def serialStage (gp : Chars → Except Unit Timestamp) (t : Chars) : Option Int :=
  if matchesD46 t then
    match serialAttempt (digitsVal t) with
    | .ok ts => some (floorD ts)
    | .error _ => genericStage gp t
  else genericStage gp t

/-- A generic parser that always raises: used to exercise the cascade on
inputs whose outcome must not depend on the external parser. -/
def gpFail : Chars → Except Unit Timestamp := fun _ => .error ()

/-- The `convert` closure of `parse_mixed_date` (lines 10–31) composed with
the trailing `.dt.floor("D")` (line 33).  `gp` is the external generic date
parser (`pd.to_datetime` on a free-form string), a parameter of the model.
Result `none` is `NaT` (the Unknown sentinel); `some z` is the day serial of
the parsed date. -/
def convert (gp : Chars → Except Unit Timestamp) (v : RawValue) : Option Int :=
  if pyIsNa v then none
  else if pyEqEmpty v then none
  else
    let t := strip (pyStr v)
    if matchesD8 t then
      match ymdAttempt t with
      | .ok ts => some (floorD ts)
      | .error _ => serialStage gp t
    else serialStage gp t

/-- Re-inject a `convert` result as a scalar, for re-normalization:
a parsed day becomes a midnight `Timestamp`, `NaT` stays missing. -/
def reinject : Option Int → RawValue
  | some z => .date ⟨z, 0⟩
  | none => .null

/-! ## `assign_nav_disclosure_dates` (ledger.py lines 116–144) -/

/-- A Python cell value as seen by the tracker: `None`, float `nan`
(pandas missing value), or a number.  `None` and `nan` are distinct:
`x is None` holds only for `None`, while `x != x` holds only for `nan`. -/
inductive PyV where
  | none
  | nan
  | num (q : ℚ)
deriving DecidableEq, Repr

/-- Model of `pd.isna` on a cell. -/
def pyvIsNa : PyV → Bool
  | .none => true
  | .nan => true
  | .num _ => false

/-- Python `x is None`. -/
def pyvIsNone : PyV → Bool
  | .none => true
  | _ => false

/-- Python `x != y` on cells; note `nan != nan` is `True`. -/
def pyvNe : PyV → PyV → Bool
  | .none, .none => false
  | .none, _ => true
  | _, .none => true
  | .nan, _ => true
  | _, .nan => true
  | .num a, .num b => a != b

/-- One row of the merged dataframe, restricted to the four columns the
tracker reads: `产品代码`, `运作模式`, `规模计算日期`, `最新单位净值`. -/
structure Row where
  code : Option String
  mode : Option String
  scaleDate : Option Int
  nav : PyV
deriving DecidableEq, Repr

instance : Inhabited Row := ⟨⟨none, none, none, .none⟩⟩

/-- The open-regime marker substring `'开放式'`. -/
def openMarker : Chars := "开放式".toList

/-- Model of `str(mode).str.contains('开放式', na=False)` for one row (line 127). -/
def containsOpen (m : Option String) : Bool :=
  match m with
  | some s => decide (List.IsInfix openMarker s.toList)
  | none => false

/-- The per-group sequential walk (lines 128–142): state is
`(last_nav, last_date)`, each row appends the post-update `last_date`. -/
def navWalk (lastNav : PyV) (lastDate : Option Int) (rows : List Row) :
    List (Option Int) :=
  match rows with
  | [] => []
  | r :: rs =>
    if containsOpen r.mode then
      r.scaleDate :: navWalk r.nav r.scaleDate rs
    else
      let cur := if pyvIsNa r.nav then lastNav else r.nav
      if pyvIsNone lastNav || pyvNe cur lastNav then
        r.scaleDate :: navWalk cur r.scaleDate rs
      else
        lastDate :: navWalk lastNav lastDate rs
termination_by structural rows

/-- The event-regime step as worded in the specification: state is the
nullable `last_known_value`; `effective` is the current unit value if
non-null, else the last known value; both state fields update exactly when
the last known value is null or `effective` differs from it. -/
def specEventWalk (lastKnown : Option ℚ) (lastDate : Option Int) (rows : List Row) :
    List (Option Int) :=
  match rows with
  | [] => []
  | r :: rs =>
    let effective : Option ℚ := match r.nav with
      | .num q => some q
      | _ => lastKnown
    if lastKnown == none || effective != lastKnown then
      r.scaleDate :: specEventWalk effective r.scaleDate rs
    else
      lastDate :: specEventWalk lastKnown lastDate rs
termination_by structural rows

/-- Inclusion of nullable numbers into Python cells. -/
def pyOfOpt : Option ℚ → PyV
  | Option.none => .none
  | some q => .num q

/-- The product code of row `i` of the dataframe (`None` when out of range). -/
def codeAt (df : List Row) (i : Nat) : Option String :=
  match df.get? i with
  | some r => r.code
  | none => none

/-- The reporting date of row `i` of the dataframe. -/
def dateAt (df : List Row) (i : Nat) : Option Int :=
  match df.get? i with
  | some r => r.scaleDate
  | none => none

/-- The original row positions of product `c`'s group
(`df.groupby('产品代码')` keeps non-null keys only). -/
def groupIndices (df : List Row) (c : String) : List Nat :=
  (List.range df.length).filter (fun i => codeAt df i == some c)

/-- Key order of `sort_values('规模计算日期')`: ascending with `NaT` last. -/
def dLeB : Option Int → Option Int → Bool
  | _, Option.none => true
  | Option.none, some _ => false
  | some x, some y => decide (x ≤ y)

/-- Comparison of two row positions by reporting date. -/
def idxLe (df : List Row) (i j : Nat) : Prop :=
  dLeB (dateAt df i) (dateAt df j) = true

instance (df : List Row) : DecidableRel (idxLe df) := fun _ _ => by
  unfold idxLe; infer_instance

instance (df : List Row) : IsTotal Nat (idxLe df) :=
  ⟨fun i j => by
    unfold idxLe
    cases hi : dateAt df i with
    | none => cases hj : dateAt df j with
      | none => simp [dLeB]
      | some y => simp [dLeB]
    | some x => cases hj : dateAt df j with
      | none => simp [dLeB]
      | some y => simp only [dLeB, decide_eq_true_eq]; omega⟩

instance (df : List Row) : IsTrans Nat (idxLe df) :=
  ⟨fun i j k h1 h2 => by
    unfold idxLe at h1 h2 ⊢
    cases hi : dateAt df i <;> cases hj : dateAt df j <;> cases hk : dateAt df k <;>
      simp_all [dLeB] <;> omega⟩

/-- The group's row positions in chronological (reporting-date) order. -/
def sortedGroup (df : List Row) (c : String) : List Nat :=
  List.insertionSort (idxLe df) (groupIndices df c)

/-- The group's rows in chronological order. -/
def groupRows (df : List Row) (c : String) : List Row :=
  (sortedGroup df c).map (fun i => (df.get? i).getD default)

/-- The dates emitted for product `c`'s group, in sorted-walk order. -/
def groupEmits (df : List Row) (c : String) : List (Option Int) :=
  navWalk .none none (groupRows df c)

/-- Model of `result.loc[group_sorted.index] = dates` (line 143): write the emitted
values back at the group's original row positions. -/
def scatter (res : List (Option Int)) (idxs : List Nat) (emits : List (Option Int)) :
    List (Option Int) :=
  match idxs, emits with
  | [], _ => res
  | _ :: _, [] => res
  | i :: is, e :: es => scatter (res.set i e) is es
termination_by structural idxs

/-- The distinct non-null product codes of the dataframe (groupby keys). -/
def codesOf (df : List Row) : List String :=
  (df.filterMap Row.code).dedup

/-- Model of `assign_nav_disclosure_dates` (lines 116–144): a result aligned to the
input positions, initialized all-`NaT`, filled group by group. -/
def assignNav (df : List Row) : List (Option Int) :=
  (codesOf df).foldl
    (fun res c => scatter res (sortedGroup df c) (groupEmits df c))
    (List.replicate df.length none)

/-- The value row `i` is expected to receive: the emitted date at its own
position within its own product's chronologically sorted walk. -/
def rowDisclosure (df : List Row) (i : Nat) : Option Int :=
  match codeAt df i with
  | some c => ((groupEmits df c).get? ((sortedGroup df c).indexOf i)).join
  | none => none

/-! ## `pd.merge(df_nv_all, df_product, how='left', on='产品代码')` (line 88) -/

/-- A valuation row (net-value table side of the merge). -/
structure NvRow where
  code : Option String
  scaleDate : Option Int
  nav : Option ℚ
deriving DecidableEq, Repr

/-- A catalog row (product table side of the merge). -/
structure CatRow where
  code : Option String
  mode : Option String
  inception : Option Int
deriving DecidableEq, Repr

/-- The left merge: every valuation row in input order; for each, the
matching catalog rows (pandas matches keys by exact equality, including
null with null); a row without a match keeps `none` catalog fields. -/
def leftMerge (nv : List NvRow) (cat : List CatRow) : List (NvRow × Option CatRow) :=
  List.flatMap nv (fun r =>
    match cat.filter (fun c => c.code == r.code) with
    | [] => [(r, none)]
    | m :: ms => (m :: ms).map (fun c => (r, some c)))

/-! ## Report projection and guarded column transforms (lines 149–182) -/

/-- A dataframe cell for the projection stage. -/
inductive Cell where
  | null
  | num (q : ℚ)
  | str (s : Chars)
  | date (z : Int)
deriving DecidableEq, Repr

/-- A dataframe as a named-column table. -/
abbrev Frame := List (String × List Cell)

/-- Presence check `col in df.columns`. -/
def hasCol (f : Frame) (n : String) : Bool := f.any (fun p => p.1 == n)

def lookupCol (f : Frame) (n : String) : Option (List Cell) :=
  (f.find? (fun p => p.1 == n)).map Prod.snd

/-- Column access `df[col]` for a single column: raises `KeyError` (`.error`) when the
column is absent. -/
def getColE (f : Frame) (n : String) : Except String (List Cell) :=
  match lookupCol f n with
  | some c => .ok c
  | none => .error n

def setCol (f : Frame) (n : String) (c : List Cell) : Frame :=
  match f with
  | [] => [(n, c)]
  | p :: ps => if p.1 == n then (n, c) :: ps else p :: setCol ps n c
termination_by structural f

/-- Model of `pd.to_numeric(x, errors='coerce') / 1e8` on one cell (line 173). -/
def scaleCell : Cell → Cell
  | .num q => .num (q / 100000000)
  | _ => .null

/-- The `%Y-%m-%d` rendering of a day serial. -/
def renderDate (z : Int) : Chars :=
  let c := civilFromDays z
  padChars 4 c.1.toNat ++ ('-' :: padChars 2 c.2.1.toNat) ++ ('-' :: padChars 2 c.2.2.toNat)

/-- Model of `.dt.strftime('%Y-%m-%d')` on one cell (line 182); `NaT` gives `NaN`. -/
def fmtDateCell : Cell → Cell
  | .date z => .str (renderDate z)
  | _ => .null

/-- The monetary columns scaled to hundred-million units (lines 171–173). -/
def scaleNames : List String :=
  ["实际募集总规模（亿元）", "折合人民币实际募集总规模（亿元）",
   "计算日存续规模（亿元）", "折合人民币计算日存续规模（亿元）"]

/-- The date columns formatted as `YYYY-MM-DD` strings (lines 180–182). -/
def fmtNames : List String :=
  ["规模计算日期", "募集开始日期", "募集结束日期", "成立日", "到期日", "最新净值日期"]

/-- The `final_columns` list (lines 149–157), the field set the projection selects. -/
def finalColumns : List String :=
  ["规模计算日期", "产品代码", "产品名称", "运作模式", "开放类型", "风险等级", "投资性质二级",
   "募集开始日期", "募集结束日期", "成立日", "到期日", "投资周期（天）",
   "业绩比较基准（%）", "当前业绩比较基准下限（%）", "当前业绩比较基准上限（%）",
   "最新销售费(%)", "最新固定管理费(%)",
   "实际募集总规模", "折合人民币实际募集总规模", "产品市值", "产品市值",
   "成立以来年化收益率（%）", "最新单位净值", "最新累计净值", "最新净值日期",
   "销售商名称", "销售对象", "产品系列", "募集方式", "募集币种"]

/-- One guarded column transform: `if col in df.columns: df[col] = fn(df[col])`.
The column read is in the error monad so an unguarded absence would surface
as `.error`. -/
def guardedMapCol (fn : Cell → Cell) (f : Frame) (n : String) : Except String Frame :=
  if hasCol f n then do
    let c ← getColE f n
    pure (setCol f n (c.map fn))
  else pure f

/-- The hundred-million scaling loop (lines 171–173). -/
def scaleLoopE (f : Frame) : Except String Frame :=
  scaleNames.foldlM (guardedMapCol scaleCell) f

/-- The date-formatting loop (lines 180–182). -/
def fmtLoopE (f : Frame) : Except String Frame :=
  fmtNames.foldlM (guardedMapCol fmtDateCell) f

/-- Selection `df_merged[final_columns]` (line 158): select the listed columns; a
missing column raises `KeyError` (`.error` with the missing name). -/
def selectCols (ns : List String) (f : Frame) : Except String Frame :=
  ns.mapM (fun n => (getColE f n).map (fun c => (n, c)))

/-! ## `calc_annualized_return` (lines 103–110) -/

/-- The `最新单位净值` cell as the calculator sees it: missing, a number, or
a non-numeric scalar on which `float(...)` raises. -/
inductive NavValue where
  | null
  | num (q : ℚ)
  | nonNumeric
deriving DecidableEq, Repr

/-- The three fields of a merged row that the calculator reads. -/
structure RRow where
  scaleDate : Option Int
  inceptDate : Option Int
  nav : NavValue
deriving DecidableEq, Repr

/-- The value `calc_annualized_return` produces for a row.
`powExpr b e` denotes the real number `(b ^ e - 1) * 100`;
`realLit q` an exact float result; `complexNum` a Python complex number
(Python 3 returns a complex for a negative float base and non-integral
exponent instead of raising); `nan` a float nan; `none` Python `None`. -/
inductive RetVal where
  | none
  | nan
  | complexNum
  | realLit (q : ℚ)
  | powExpr (base expnt : ℚ)
deriving DecidableEq, Repr

/-- Model of `calc_annualized_return` (lines 103–110).  When either date is `NaT`
the subtraction gives `NaT`, whose `.days` is float `nan`; `nan <= 0` is
`False`, `365 / nan` is `nan`, and `pow(v, nan)` is `1.0` when `v == 1.0`
and `nan` otherwise, so no exception occurs and the `except` arm is not
taken. -/
def calcAnnualizedReturn (r : RRow) : RetVal :=
  match r.scaleDate, r.inceptDate with
  | some a, some b =>
    let d := a - b
    if d ≤ 0 then .none
    else
      match r.nav with
      | .null => .none
      | .nonNumeric => .none
      | .num q =>
        let e : ℚ := Rat.divInt 365 d
        if q < 0 then (if e.den == 1 then .powExpr q e else .complexNum)
        else .powExpr q e
  | _, _ =>
    match r.nav with
    | .null => .none
    | .nonNumeric => .none
    | .num q => if q == 1 then .realLit 0 else .nan

/-! ## Lemmas about `convert` -/

theorem convert_step (gp : Chars → Except Unit Timestamp) (v : RawValue)
    (h1 : pyIsNa v = false) (h2 : pyEqEmpty v = false) :
    convert gp v =
      (if matchesD8 (strip (pyStr v)) then
        match ymdAttempt (strip (pyStr v)) with
        | .ok ts => some (floorD ts)
        | .error _ => serialStage gp (strip (pyStr v))
      else serialStage gp (strip (pyStr v))) := by
  unfold convert
  rw [h1, h2]
  simp

theorem matchesD46_not_d8 (t : Chars) (h : matchesD46 t = true) :
    matchesD8 t = false := by
  unfold matchesD46 at h
  unfold matchesD8
  simp only [Bool.and_eq_true, decide_eq_true_eq] at h
  simp only [Bool.and_eq_false_iff, beq_eq_false_iff_ne]
  left
  omega

theorem serialAttempt_ok (n : Nat)
    (h1 : tsMinDay ≤ excelEpoch + Int.ofNat n)
    (h2 : excelEpoch + Int.ofNat n ≤ tsMaxDay) :
    serialAttempt n = .ok ⟨excelEpoch + Int.ofNat n, 0⟩ := by
  unfold serialAttempt
  simp
  exact ⟨h1, h2⟩

theorem serialStage_ok (gp : Chars → Except Unit Timestamp) (t : Chars)
    (ts : Timestamp) (h46 : matchesD46 t = true)
    (hs : serialAttempt (digitsVal t) = .ok ts) :
    serialStage gp t = some (floorD ts) := by
  unfold serialStage
  rw [h46, hs]
  simp

theorem serialStage_err (gp : Chars → Except Unit Timestamp) (t : Chars)
    (h46 : matchesD46 t = true) (hs : serialAttempt (digitsVal t) = .error ()) :
    serialStage gp t = genericStage gp t := by
  unfold serialStage
  rw [h46, hs]
  simp

theorem serialStage_no46 (gp : Chars → Except Unit Timestamp) (t : Chars)
    (h : matchesD46 t = false) : serialStage gp t = genericStage gp t := by
  unfold serialStage
  rw [h]
  simp

theorem floorD_midnight (z : Int) : floorD ⟨z, 0⟩ = z := by
  unfold floorD
  simp [Int.fdiv]

/-- Characters surviving a membership through `strip`. -/
theorem mem_dropWhile_of_not (p : Char → Bool) (l : Chars) (c : Char)
    (hc : c ∈ l) (hp : p c = false) : c ∈ l.dropWhile p := by
  induction l with
  | nil => cases hc
  | cons a l ih =>
    by_cases ha : p a = true
    · rw [List.dropWhile_cons_of_pos ha]
      rcases List.mem_cons.mp hc with rfl | hmem
      · rw [hp] at ha; cases ha
      · exact ih hmem
    · rw [List.dropWhile_cons_of_neg (by simpa using ha)]
      exact hc

theorem mem_strip_of_not_ws (s : Chars) (c : Char) (hc : c ∈ s)
    (hw : c.isWhitespace = false) : c ∈ strip s := by
  unfold strip
  rw [List.mem_reverse]
  apply mem_dropWhile_of_not _ _ _ _ hw
  rw [List.mem_reverse]
  exact mem_dropWhile_of_not _ _ _ hc hw

theorem allDigits_false_of_mem (s : Chars) (c : Char) (hc : c ∈ s)
    (hd : c.isDigit = false) : allDigits s = false := by
  unfold allDigits
  by_contra h
  rw [Bool.not_eq_false, List.all_eq_true] at h
  rw [h c hc] at hd
  cases hd

theorem dash_mem_renderTs (t : Timestamp) : '-' ∈ renderTs t := by
  unfold renderTs
  simp [List.mem_append]

theorem renderTs_not_d8 (t : Timestamp) : matchesD8 (strip (renderTs t)) = false := by
  have hmem : '-' ∈ strip (renderTs t) :=
    mem_strip_of_not_ws _ _ (dash_mem_renderTs t) (by decide)
  have hall : allDigits (strip (renderTs t)) = false :=
    allDigits_false_of_mem _ _ hmem (by decide)
  unfold matchesD8
  rw [hall]
  simp

theorem renderTs_not_d46 (t : Timestamp) : matchesD46 (strip (renderTs t)) = false := by
  have hmem : '-' ∈ strip (renderTs t) :=
    mem_strip_of_not_ws _ _ (dash_mem_renderTs t) (by decide)
  have hall : allDigits (strip (renderTs t)) = false :=
    allDigits_false_of_mem _ _ hmem (by decide)
  unfold matchesD46
  rw [hall]
  simp

theorem matchesD8_not_d46 (t : Chars) (h : matchesD8 t = true) :
    matchesD46 t = false := by
  unfold matchesD8 at h
  unfold matchesD46
  simp only [Bool.and_eq_true, beq_iff_eq] at h
  simp only [Bool.and_eq_false_iff, decide_eq_false_iff_not]
  left
  right
  omega

theorem ymdAttempt_ok (t : Chars)
    (hv : civilValid (ymdY t) (ymdM t) (ymdD t) = true)
    (h1 : tsMinDay ≤ daysFromCivil (ymdY t) (ymdM t) (ymdD t))
    (h2 : daysFromCivil (ymdY t) (ymdM t) (ymdD t) ≤ tsMaxDay) :
    ymdAttempt t = .ok ⟨daysFromCivil (ymdY t) (ymdM t) (ymdD t), 0⟩ := by
  unfold ymdAttempt
  simp [hv]
  exact ⟨h1, h2⟩

/-- The 8-digit stage, successful case, for any scalar. -/
theorem convert_d8_value (gp : Chars → Except Unit Timestamp) (v : RawValue)
    (h1 : pyIsNa v = false) (h2 : pyEqEmpty v = false)
    (h8 : matchesD8 (strip (pyStr v)) = true)
    (hv : civilValid (ymdY (strip (pyStr v))) (ymdM (strip (pyStr v)))
      (ymdD (strip (pyStr v))) = true)
    (hlo : tsMinDay ≤ daysFromCivil (ymdY (strip (pyStr v)))
      (ymdM (strip (pyStr v))) (ymdD (strip (pyStr v))))
    (hhi : daysFromCivil (ymdY (strip (pyStr v)))
      (ymdM (strip (pyStr v))) (ymdD (strip (pyStr v))) ≤ tsMaxDay) :
    convert gp v = some (daysFromCivil (ymdY (strip (pyStr v)))
      (ymdM (strip (pyStr v))) (ymdD (strip (pyStr v)))) := by
  rw [convert_step gp v h1 h2, h8]
  simp only [if_true]
  rw [ymdAttempt_ok _ hv hlo hhi]
  simp [floorD_midnight]

/-- The 4–6-digit serial stage, successful case, for any scalar. -/
theorem convert_d46_value (gp : Chars → Except Unit Timestamp) (v : RawValue)
    (h1 : pyIsNa v = false) (h2 : pyEqEmpty v = false)
    (h46 : matchesD46 (strip (pyStr v)) = true)
    (hlo : tsMinDay ≤ excelEpoch + Int.ofNat (digitsVal (strip (pyStr v))))
    (hhi : excelEpoch + Int.ofNat (digitsVal (strip (pyStr v))) ≤ tsMaxDay) :
    convert gp v = some (excelEpoch + Int.ofNat (digitsVal (strip (pyStr v)))) := by
  rw [convert_step gp v h1 h2, matchesD46_not_d8 _ h46]
  simp only [Bool.false_eq_true, if_false]
  rw [serialStage_ok gp _ _ h46 (serialAttempt_ok _ hlo hhi)]
  rw [floorD_midnight]

/-- Failure of the 8-digit stage falls through to the generic stage
(the 4–6-digit guard cannot match an 8-character text). -/
theorem convert_d8_fallthrough (gp : Chars → Except Unit Timestamp) (v : RawValue)
    (h1 : pyIsNa v = false) (h2 : pyEqEmpty v = false)
    (h8 : matchesD8 (strip (pyStr v)) = true)
    (he : ymdAttempt (strip (pyStr v)) = .error ()) :
    convert gp v = genericStage gp (strip (pyStr v)) := by
  rw [convert_step gp v h1 h2, h8]
  simp only [if_true]
  rw [he]
  exact serialStage_no46 gp _ (matchesD8_not_d46 _ h8)

/-- Failure of the serial stage falls through to the generic stage. -/
theorem convert_d46_fallthrough (gp : Chars → Except Unit Timestamp) (v : RawValue)
    (h1 : pyIsNa v = false) (h2 : pyEqEmpty v = false)
    (h46 : matchesD46 (strip (pyStr v)) = true)
    (he : serialAttempt (digitsVal (strip (pyStr v))) = .error ()) :
    convert gp v = genericStage gp (strip (pyStr v)) := by
  rw [convert_step gp v h1 h2, matchesD46_not_d8 _ h46]
  simp only [Bool.false_eq_true, if_false]
  exact serialStage_err gp _ h46 he

/-- A text matching neither digit pattern goes straight to the generic stage. -/
theorem convert_generic_only (gp : Chars → Except Unit Timestamp) (v : RawValue)
    (h1 : pyIsNa v = false) (h2 : pyEqEmpty v = false)
    (h8 : matchesD8 (strip (pyStr v)) = false)
    (h46 : matchesD46 (strip (pyStr v)) = false) :
    convert gp v = genericStage gp (strip (pyStr v)) := by
  rw [convert_step gp v h1 h2, h8]
  simp only [Bool.false_eq_true, if_false]
  exact serialStage_no46 gp _ h46

/-- C4: the DateNormalizer cascade: stringify and trim; an exactly-8-digit
text is read as `YYYYMMDD`; else a 4–6-digit text (whether the scalar was a
numeric string or a number) is read as a day-count serial from the epoch
1899-12-30, so `"45292"` normalizes to 2024-01-01; a parse failure at a
stage falls through, ending with the generic parse; every success is
truncated to day resolution (the results are day serials, the generic
result is floored by `floorD`). -/
theorem mixed_date_cascade :
    (∀ gp s, matchesD8 (strip s) = true →
      civilValid (ymdY (strip s)) (ymdM (strip s)) (ymdD (strip s)) = true →
      tsMinDay ≤ daysFromCivil (ymdY (strip s)) (ymdM (strip s)) (ymdD (strip s)) →
      daysFromCivil (ymdY (strip s)) (ymdM (strip s)) (ymdD (strip s)) ≤ tsMaxDay →
      convert gp (.str s) =
        some (daysFromCivil (ymdY (strip s)) (ymdM (strip s)) (ymdD (strip s)))) ∧
    (∀ gp v, pyIsNa v = false → pyEqEmpty v = false →
      matchesD46 (strip (pyStr v)) = true →
      tsMinDay ≤ excelEpoch + Int.ofNat (digitsVal (strip (pyStr v))) →
      excelEpoch + Int.ofNat (digitsVal (strip (pyStr v))) ≤ tsMaxDay →
      convert gp v = some (excelEpoch + Int.ofNat (digitsVal (strip (pyStr v))))) ∧
    (∀ gp, convert gp (.str "45292".toList) = some (daysFromCivil 2024 1 1)) ∧
    (∀ gp s, matchesD8 (strip s) = true → ymdAttempt (strip s) = .error () →
      convert gp (.str s) = genericStage gp (strip s)) ∧
    (∀ gp s, matchesD46 (strip s) = true →
      serialAttempt (digitsVal (strip s)) = .error () →
      convert gp (.str s) = genericStage gp (strip s)) ∧
    (∀ gp s, s.isEmpty = false → matchesD8 (strip s) = false →
      matchesD46 (strip s) = false →
      convert gp (.str s) = genericStage gp (strip s)) := by
  have hne : ∀ s : Chars, matchesD8 (strip s) = true ∨ matchesD46 (strip s) = true →
      pyEqEmpty (.str s) = false := by
    intro s hs
    cases s with
    | nil =>
      rcases hs with h | h <;> simp [strip, matchesD8, matchesD46, allDigits] at h
    | cons a l => rfl
  refine ⟨?_, ?_, ?_, ?_, ?_, ?_⟩
  · intro gp s h8 hv hlo hhi
    exact convert_d8_value gp (.str s) rfl (hne s (Or.inl h8)) h8 hv hlo hhi
  · intro gp v h1 h2 h46 hlo hhi
    exact convert_d46_value gp v h1 h2 h46 hlo hhi
  · intro gp
    have h := convert_d46_value gp (.str "45292".toList) rfl (by decide)
      (by decide) (by decide) (by decide)
    rw [h]
    decide
  · intro gp s h8 he
    exact convert_d8_fallthrough gp (.str s) rfl (hne s (Or.inl h8)) h8 he
  · intro gp s h46 he
    exact convert_d46_fallthrough gp (.str s) rfl (hne s (Or.inr h46)) h46 he
  · intro gp s hs h8 h46
    exact convert_generic_only gp (.str s) rfl (by simpa [pyEqEmpty] using hs) h8 h46

/-- Witness for C4: the cascade evaluated on concrete scalars — a valid
8-digit date, an integer serial, the literal `"45292"`, an invalid 8-digit
text, an out-of-bounds 6-digit serial, and a non-digit text. -/
theorem mixed_date_cascade_witness :
    convert gpFail (.str "20240101".toList) = some (daysFromCivil 2024 1 1) ∧
    convert gpFail (.int 45292) = some (daysFromCivil 2024 1 1) ∧
    convert gpFail (.str "45292".toList) = some (daysFromCivil 2024 1 1) ∧
    convert gpFail (.str "99999999".toList) = genericStage gpFail (strip "99999999".toList) ∧
    convert gpFail (.str "999999".toList) = genericStage gpFail (strip "999999".toList) ∧
    convert gpFail (.str "abcde".toList) = genericStage gpFail (strip "abcde".toList) := by
  refine ⟨?_, ?_, ?_, ?_, ?_, ?_⟩
  · have h := mixed_date_cascade.1 gpFail "20240101".toList (by decide) (by decide)
      (by decide) (by decide)
    rw [h]; decide
  · have h := mixed_date_cascade.2.1 gpFail (.int 45292) (by decide) (by decide)
      (by decide) (by decide) (by decide)
    rw [h]; decide
  · exact mixed_date_cascade.2.2.1 gpFail
  · exact mixed_date_cascade.2.2.2.1 gpFail "99999999".toList (by decide) (by decide)
  · exact mixed_date_cascade.2.2.2.2.1 gpFail "999999".toList (by decide) (by decide)
  · exact mixed_date_cascade.2.2.2.2.2 gpFail "abcde".toList (by decide) (by decide)
      (by decide)

/-- C7: the DateNormalizer is total: `None`/`NaT` and the empty string map
to the Unknown sentinel (`none`), and when every stage of the cascade fails
the result is the Unknown sentinel as well — the stage attempts live in an
error monad and every `.error` is caught inside `convert`, which returns a
plain `Option`, so no exception reaches the caller. -/
theorem mixed_date_totality :
    ∀ gp, convert gp .null = none ∧
    convert gp (.str []) = none ∧
    (∀ v, pyIsNa v = false → pyEqEmpty v = false →
      (matchesD8 (strip (pyStr v)) = true → ymdAttempt (strip (pyStr v)) = .error ()) →
      (matchesD46 (strip (pyStr v)) = true →
        serialAttempt (digitsVal (strip (pyStr v))) = .error ()) →
      gp (strip (pyStr v)) = .error () →
      convert gp v = none) := by
  intro gp
  refine ⟨rfl, rfl, ?_⟩
  intro v h1 h2 hymd hser hgp
  by_cases h8 : matchesD8 (strip (pyStr v)) = true
  · rw [convert_d8_fallthrough gp v h1 h2 h8 (hymd h8)]
    unfold genericStage
    rw [hgp]
  · by_cases h46 : matchesD46 (strip (pyStr v)) = true
    · rw [convert_d46_fallthrough gp v h1 h2 h46 (hser h46)]
      unfold genericStage
      rw [hgp]
    · rw [convert_generic_only gp v h1 h2 (by simpa using h8) (by simpa using h46)]
      unfold genericStage
      rw [hgp]

/-- Witness for C7: `None`, the empty string and an unparseable scalar all
yield the Unknown sentinel. -/
theorem mixed_date_totality_witness :
    convert gpFail .null = none ∧
    convert gpFail (.str []) = none ∧
    convert gpFail (.str "abcde".toList) = none := by
  refine ⟨(mixed_date_totality gpFail).1, (mixed_date_totality gpFail).2.1, ?_⟩
  exact (mixed_date_totality gpFail).2.2 (.str "abcde".toList) (by decide) (by decide)
    (by decide) (by decide) rfl

/-- C9: the DateNormalizer is idempotent on canonical day-resolution dates:
when the generic parser round-trips the canonical textual rendering of a
midnight timestamp, normalizing the canonical date returns its own day
serial unchanged, and re-normalizing the normalized value is a no-op. -/
theorem mixed_date_idempotent :
    ∀ gp s, gp (strip (renderTs ⟨s, 0⟩)) = .ok ⟨s, 0⟩ →
    convert gp (.date ⟨s, 0⟩) = some s ∧
    convert gp (reinject (convert gp (.date ⟨s, 0⟩))) = convert gp (.date ⟨s, 0⟩) := by
  intro gp s hgp
  have h1 : convert gp (.date ⟨s, 0⟩) = some s := by
    rw [convert_generic_only gp (.date ⟨s, 0⟩) rfl rfl (renderTs_not_d8 _)
      (renderTs_not_d46 _)]
    unfold genericStage
    simp only [pyStr]
    rw [hgp]
    simp [floorD_midnight]
  refine ⟨h1, ?_⟩
  rw [h1]
  exact h1

/-- Witness for C9: the canonical date 2024-01-01 (day serial 19723), with a
generic parser that parses its rendering back, re-normalizes to itself. -/
theorem mixed_date_idempotent_witness :
    convert
      (fun t => if t == strip (renderTs ⟨19723, 0⟩) then .ok ⟨19723, 0⟩ else .error ())
      (.date ⟨19723, 0⟩) = some 19723 :=
  (mixed_date_idempotent
    (fun t => if t == strip (renderTs ⟨19723, 0⟩) then .ok ⟨19723, 0⟩ else .error ())
    19723 (by simp)).1

/-! ## Lemmas about the disclosure walk -/

theorem pyOfOpt_some (q : ℚ) : pyOfOpt (some q) = PyV.num q := rfl

theorem pyOfOpt_none : pyOfOpt none = PyV.none := rfl

theorem pyv_cond_num (lk : Option ℚ) (q : ℚ) :
    (pyvIsNone (pyOfOpt lk) || pyvNe (PyV.num q) (pyOfOpt lk)) =
      (lk == none || some q != lk) := by
  cases lk <;> simp [pyOfOpt, pyvIsNone, pyvNe, bne]

theorem pyv_cond_self (lk : Option ℚ) :
    (pyvIsNone (pyOfOpt lk) || pyvNe (pyOfOpt lk) (pyOfOpt lk)) =
      (lk == none || lk != lk) := by
  cases lk <;> simp [pyOfOpt, pyvIsNone, pyvNe, bne]

/-- On an all-event-regime segment the source walk computes exactly the
specification's nullable-value state machine. -/
theorem navWalk_eq_specEvent (rows : List Row) : ∀ lastKnown lastDate,
    (∀ r ∈ rows, containsOpen r.mode = false) →
    navWalk (pyOfOpt lastKnown) lastDate rows = specEventWalk lastKnown lastDate rows := by
  induction rows with
  | nil => intro lk ld _; rfl
  | cons r rs ih =>
    intro lk ld h
    have hr : containsOpen r.mode = false := h r (List.mem_cons_self r rs)
    have hrs : ∀ x ∈ rs, containsOpen x.mode = false :=
      fun x hx => h x (List.mem_cons_of_mem r hx)
    unfold navWalk specEventWalk
    rw [hr]
    simp only [Bool.false_eq_true, if_false]
    cases hnav : r.nav with
    | num q =>
      simp only [pyvIsNa, Bool.false_eq_true, if_false, pyv_cond_num lk q]
      by_cases hcond : (lk == none || some q != lk) = true
      · rw [hcond]
        simp only [if_true]
        have h2 := ih (some q) r.scaleDate hrs
        rw [pyOfOpt_some] at h2
        rw [h2]
      · rw [Bool.not_eq_true] at hcond
        rw [hcond]
        simp only [Bool.false_eq_true, if_false]
        rw [ih lk ld hrs]
    | none =>
      simp only [pyvIsNa, if_true, pyv_cond_self lk]
      by_cases hcond : (lk == none || lk != lk) = true
      · rw [hcond]
        simp only [if_true]
        rw [ih lk r.scaleDate hrs]
      · rw [Bool.not_eq_true] at hcond
        rw [hcond]
        simp only [Bool.false_eq_true, if_false]
        rw [ih lk ld hrs]
    | nan =>
      simp only [pyvIsNa, if_true, pyv_cond_self lk]
      by_cases hcond : (lk == none || lk != lk) = true
      · rw [hcond]
        simp only [if_true]
        rw [ih lk r.scaleDate hrs]
      · rw [Bool.not_eq_true] at hcond
        rw [hcond]
        simp only [Bool.false_eq_true, if_false]
        rw [ih lk ld hrs]

/-- C1: event regime: starting from state `(null, null)`, each step computes
`effective` (current value if non-null, else the last known value), updates
the state to `(effective, current date)` exactly when the last known value
is null or `effective` differs from it, and emits the post-step disclosure
date; unit values `[1.00, 1.00, 1.05, 1.05]` on dates `D1..D4` emit
`[D1, D1, D3, D3]`, and `[1.00, null, 1.05]` on `D1..D3` emit
`[D1, D1, D3]`. -/
theorem event_regime_walk :
    (∀ rows lastKnown lastDate, (∀ r ∈ rows, containsOpen r.mode = false) →
      navWalk (pyOfOpt lastKnown) lastDate rows = specEventWalk lastKnown lastDate rows) ∧
    navWalk .none none
      [⟨some "A", none, some 1, .num 1⟩, ⟨some "A", none, some 2, .num 1⟩,
       ⟨some "A", none, some 3, .num (mkRat 21 20)⟩, ⟨some "A", none, some 4, .num (mkRat 21 20)⟩] =
      [some 1, some 1, some 3, some 3] ∧
    navWalk .none none
      [⟨some "A", none, some 1, .num 1⟩, ⟨some "A", none, some 2, .nan⟩,
       ⟨some "A", none, some 3, .num (mkRat 21 20)⟩] =
      [some 1, some 1, some 3] :=
  ⟨fun rows lk ld h => navWalk_eq_specEvent rows lk ld h, by decide, by decide⟩

/-- Witness for C1: the source walk and the specification's state machine
agree on a concrete all-event sequence with a null mid-sequence value. -/
theorem event_regime_walk_witness :
    navWalk .none none
      [⟨some "A", none, some 1, .num 1⟩, ⟨some "A", none, some 2, .nan⟩,
       ⟨some "A", none, some 3, .num (mkRat 21 20)⟩] =
    specEventWalk none none
      [⟨some "A", none, some 1, .num 1⟩, ⟨some "A", none, some 2, .nan⟩,
       ⟨some "A", none, some 3, .num (mkRat 21 20)⟩] :=
  event_regime_walk.1
    [⟨some "A", none, some 1, .num 1⟩, ⟨some "A", none, some 2, .nan⟩,
     ⟨some "A", none, some 3, .num (mkRat 21 20)⟩] none none (by decide)

/-- C5: open regime: every observation's emitted disclosure date is its own
reporting date and the tracked state is unconditionally refreshed, for any
starting state; dates `D1 < D2 < D3` emit exactly `D1, D2, D3`. -/
theorem open_regime_walk :
    (∀ rows, (∀ r ∈ rows, containsOpen r.mode = true) →
      ∀ lastNav lastDate, navWalk lastNav lastDate rows = rows.map Row.scaleDate) ∧
    navWalk .none none
      [⟨some "P", some "开放式", some 1, .num 1⟩,
       ⟨some "P", some "开放式", some 2, .nan⟩,
       ⟨some "P", some "开放式", some 3, .num 2⟩] = [some 1, some 2, some 3] := by
  constructor
  · intro rows h
    induction rows with
    | nil => intro ln ld; rfl
    | cons r rs ih =>
      intro ln ld
      have hr : containsOpen r.mode = true := h r (List.mem_cons_self r rs)
      unfold navWalk
      rw [hr]
      simp only [if_true, List.map_cons]
      rw [ih (fun x hx => h x (List.mem_cons_of_mem r hx)) r.nav r.scaleDate]
  · decide

/-- Witness for C5: a concrete three-observation open-regime product emits
its own reporting dates. -/
theorem open_regime_walk_witness :
    navWalk .none none
      [⟨some "P", some "开放式", some 1, .num 1⟩,
       ⟨some "P", some "开放式", some 2, .nan⟩,
       ⟨some "P", some "开放式", some 3, .num 2⟩] =
    List.map Row.scaleDate
      [⟨some "P", some "开放式", some 1, .num 1⟩,
       ⟨some "P", some "开放式", some 2, .nan⟩,
       ⟨some "P", some "开放式", some 3, .num 2⟩] :=
  open_regime_walk.1
    [⟨some "P", some "开放式", some 1, .num 1⟩,
     ⟨some "P", some "开放式", some 2, .nan⟩,
     ⟨some "P", some "开放式", some 3, .num 2⟩] (by decide) .none none

/-! ## Lemmas about grouping and the scatter of emitted dates -/

theorem navWalk_length (rows : List Row) : ∀ lastNav lastDate,
    (navWalk lastNav lastDate rows).length = rows.length := by
  induction rows with
  | nil => intro ln ld; rfl
  | cons r rs ih =>
    intro ln ld
    simp only [navWalk]
    split
    · simp [ih]
    · split <;> split <;> simp [ih]

theorem scatter_length (idxs : List Nat) : ∀ res emits,
    (scatter res idxs emits).length = res.length := by
  induction idxs with
  | nil => intro res emits; rfl
  | cons i is ih =>
    intro res emits
    cases emits with
    | nil => rfl
    | cons e es =>
      show (scatter (res.set i e) is es).length = res.length
      rw [ih, List.length_set]

theorem scatter_get_not_mem (idxs : List Nat) : ∀ res emits i, i ∉ idxs →
    (scatter res idxs emits).get? i = res.get? i := by
  induction idxs with
  | nil => intro res emits i _; rfl
  | cons j js ih =>
    intro res emits i h
    cases emits with
    | nil => rfl
    | cons e es =>
      have hns : i ∉ js := fun hmem => h (List.mem_cons_of_mem j hmem)
      have hji : i ≠ j := fun heq => h (heq ▸ List.mem_cons_self j js)
      show (scatter (res.set j e) js es).get? i = res.get? i
      rw [ih _ _ _ hns]
      exact List.get?_set_ne e res (Ne.symm hji)

theorem scatter_get_at (idxs : List Nat) : ∀ res emits k i, idxs.Nodup →
    idxs.get? k = some i → emits.length = idxs.length → i < res.length →
    (scatter res idxs emits).get? i = emits.get? k := by
  induction idxs with
  | nil => intro res emits k i _ hk _ _; simp at hk
  | cons j js ih =>
    intro res emits k i hnd hk hlen hi
    cases emits with
    | nil => simp at hlen
    | cons e es =>
      rcases List.nodup_cons.mp hnd with ⟨hjn, hnd'⟩
      cases k with
      | zero =>
        simp only [List.get?] at hk
        injection hk with hk
        subst hk
        show (scatter (res.set j e) js es).get? j = some e
        rw [scatter_get_not_mem js _ _ _ hjn]
        rw [List.get?_set_eq, List.get?_eq_get hi]
        rfl
      | succ k' =>
        simp only [List.get?] at hk
        have hilen : i < (res.set j e).length := by rw [List.length_set]; exact hi
        show (scatter (res.set j e) js es).get? i = es.get? k'
        exact ih _ _ _ _ hnd' hk (by simpa using hlen) hilen

theorem codeAt_some_lt (df : List Row) (i : Nat) (c : String)
    (h : codeAt df i = some c) : i < df.length := by
  unfold codeAt at h
  cases hg : df.get? i with
  | none => rw [hg] at h; cases h
  | some r =>
    rcases List.get?_eq_some.mp hg with ⟨hlt, _⟩
    exact hlt

theorem mem_groupIndices (df : List Row) (c : String) (i : Nat) :
    i ∈ groupIndices df c ↔ codeAt df i = some c := by
  unfold groupIndices
  rw [List.mem_filter, List.mem_range]
  constructor
  · rintro ⟨_, h⟩
    exact beq_iff_eq.mp h
  · intro h
    exact ⟨codeAt_some_lt df i c h, beq_iff_eq.mpr h⟩

theorem mem_sortedGroup (df : List Row) (c : String) (i : Nat) :
    i ∈ sortedGroup df c ↔ codeAt df i = some c :=
  ((List.perm_insertionSort _ _).mem_iff).trans (mem_groupIndices df c i)

theorem sortedGroup_nodup (df : List Row) (c : String) : (sortedGroup df c).Nodup :=
  ((List.perm_insertionSort _ _).nodup_iff).mpr ((List.nodup_range _).filter _)

theorem nodup_indexOf_of_get? (l : List Nat) : ∀ k i, l.Nodup → l.get? k = some i →
    l.indexOf i = k := by
  induction l with
  | nil => intro k i _ h; simp at h
  | cons a as ih =>
    intro k i hnd hk
    rcases List.nodup_cons.mp hnd with ⟨ha, hnd'⟩
    cases k with
    | zero =>
      simp only [List.get?] at hk
      injection hk with hk
      subst hk
      exact List.indexOf_cons_self _ _
    | succ k' =>
      simp only [List.get?] at hk
      have hia : a ≠ i := by
        intro he
        subst he
        exact ha (List.get?_mem hk)
      rw [List.indexOf_cons_ne _ hia]
      rw [ih _ _ hnd' hk]

theorem get?_indexOf_self (l : List Nat) (i : Nat) (h : i ∈ l) :
    l.get? (l.indexOf i) = some i := by
  have hlt := List.indexOf_lt_length.mpr h
  rw [List.get?_eq_get hlt, List.indexOf_get]

theorem foldScatter_length (df : List Row) (cs : List String) : ∀ res : List (Option Int),
    (cs.foldl (fun res c => scatter res (sortedGroup df c) (groupEmits df c)) res).length
      = res.length := by
  induction cs with
  | nil => intro res; rfl
  | cons c cs' ih => intro res; rw [List.foldl_cons, ih, scatter_length]

theorem foldScatter_get_untouched (df : List Row) (cs : List String) :
    ∀ (res : List (Option Int)) i, (∀ c ∈ cs, codeAt df i ≠ some c) →
    (cs.foldl (fun res c => scatter res (sortedGroup df c) (groupEmits df c)) res).get? i
      = res.get? i := by
  induction cs with
  | nil => intro res i _; rfl
  | cons c cs' ih =>
    intro res i h
    rw [List.foldl_cons, ih _ _ (fun c' hc' => h c' (List.mem_cons_of_mem c hc'))]
    exact scatter_get_not_mem _ _ _ _
      (fun hmem => h c (List.mem_cons_self c cs') ((mem_sortedGroup df c i).mp hmem))

theorem groupEmits_length (df : List Row) (c : String) :
    (groupEmits df c).length = (sortedGroup df c).length := by
  unfold groupEmits groupRows
  rw [navWalk_length, List.length_map]

theorem foldScatter_get_group (df : List Row) (cs : List String) :
    ∀ (res : List (Option Int)) i c, codeAt df i = some c → c ∈ cs → cs.Nodup →
    res.length = df.length →
    (cs.foldl (fun res c => scatter res (sortedGroup df c) (groupEmits df c)) res).get? i
      = (groupEmits df c).get? ((sortedGroup df c).indexOf i) := by
  induction cs with
  | nil => intro res i c _ hc; cases hc
  | cons c' cs' ih =>
    intro res i c hcode hmem hnd hlen
    rcases List.nodup_cons.mp hnd with ⟨hcn, hnd'⟩
    rw [List.foldl_cons]
    by_cases he : c' = c
    · subst he
      have hmem_i : i ∈ sortedGroup df c' := (mem_sortedGroup df c' i).mpr hcode
      rw [foldScatter_get_untouched df cs' _ i
        (fun c'' hc'' heq => hcn (by
          rw [hcode] at heq
          injection heq with heq
          rw [heq]
          exact hc''))]
      exact scatter_get_at _ _ _ _ _ (sortedGroup_nodup df c')
        (get?_indexOf_self _ _ hmem_i) (groupEmits_length df c')
        (by rw [hlen]; exact codeAt_some_lt df i c' hcode)
    · have hmem' : c ∈ cs' := by
        rcases List.mem_cons.mp hmem with rfl | hm
        · exact absurd rfl he
        · exact hm
      rw [ih _ i c hcode hmem' hnd' (by rw [scatter_length]; exact hlen)]

theorem codesOf_mem (df : List Row) (i : Nat) (c : String)
    (h : codeAt df i = some c) : c ∈ codesOf df := by
  unfold codesOf
  rw [List.mem_dedup, List.mem_filterMap]
  unfold codeAt at h
  cases hg : df.get? i with
  | none => rw [hg] at h; cases h
  | some r =>
    rw [hg] at h
    exact ⟨r, List.get?_mem hg, h⟩

theorem assignNav_length (df : List Row) : (assignNav df).length = df.length := by
  unfold assignNav
  rw [foldScatter_length, List.length_replicate]

theorem assignNav_get_group (df : List Row) (i : Nat) (c : String)
    (h : codeAt df i = some c) :
    (assignNav df).get? i = (groupEmits df c).get? ((sortedGroup df c).indexOf i) := by
  unfold assignNav
  exact foldScatter_get_group df (codesOf df) _ i c h (codesOf_mem df i c h)
    (List.nodup_dedup _) (List.length_replicate _ _)

theorem assignNav_get_nullcode (df : List Row) (i : Nat) (hi : i < df.length)
    (h : codeAt df i = none) : (assignNav df).get? i = some none := by
  unfold assignNav
  rw [foldScatter_get_untouched df _ _ i (fun c _ hc => by rw [h] at hc; cases hc)]
  rw [List.get?_eq_getElem?, List.getElem?_replicate]
  rw [if_pos hi]

theorem rowDisclosure_spec (df : List Row) (i : Nat) (c : String)
    (h : codeAt df i = some c) :
    (assignNav df).get? i = some (rowDisclosure df i) := by
  rw [assignNav_get_group df i c h]
  unfold rowDisclosure
  rw [h]
  have hmem : i ∈ sortedGroup df c := (mem_sortedGroup df c i).mpr h
  have hlt : (sortedGroup df c).indexOf i < (sortedGroup df c).length :=
    List.indexOf_lt_length.mpr hmem
  have hlt2 : (sortedGroup df c).indexOf i < (groupEmits df c).length := by
    rw [groupEmits_length]
    exact hlt
  show (groupEmits df c).get? ((sortedGroup df c).indexOf i) =
    some (((groupEmits df c).get? ((sortedGroup df c).indexOf i)).join)
  rw [List.get?_eq_get hlt2]
  rfl

/-- C6: every row of the merged dataframe whose product code is non-null
receives exactly one emitted disclosure date, placed back at the row's
original position — the output has the input's length, and position `i`
holds exactly the date emitted for row `i` at its own position within its
product's chronologically sorted walk; rows outside every product (null
code) keep the initialization value. -/
theorem disclosure_alignment (df : List Row) :
    (assignNav df).length = df.length ∧
    (∀ i c, codeAt df i = some c →
      (assignNav df).get? i = some (rowDisclosure df i)) ∧
    (∀ i, i < df.length → codeAt df i = none →
      (assignNav df).get? i = some none) :=
  ⟨assignNav_length df,
   fun i c h => rowDisclosure_spec df i c h,
   fun i hi h => assignNav_get_nullcode df i hi h⟩

/-- Witness for C6: two interleaved products with out-of-order dates; each
row's output slot holds its own group's emitted date. -/
theorem disclosure_alignment_witness :
    (assignNav [⟨some "A", none, some 2, .num 1⟩,
      ⟨some "B", some "开放式", some 5, .nan⟩,
      ⟨some "A", none, some 1, .num 2⟩]).get? 0 =
      some (rowDisclosure [⟨some "A", none, some 2, .num 1⟩,
        ⟨some "B", some "开放式", some 5, .nan⟩,
        ⟨some "A", none, some 1, .num 2⟩] 0) :=
  (disclosure_alignment _).2.1 0 "A" (by decide)

/-- Every date the walk emits is either the reporting date of a row at or
before the emitting position, or the initial `last_date`. -/
theorem navWalk_emit_src (rows : List Row) : ∀ lastNav lastDate k t,
    (navWalk lastNav lastDate rows).get? k = some (some t) →
    (∃ j r, j ≤ k ∧ rows.get? j = some r ∧ r.scaleDate = some t) ∨
      lastDate = some t := by
  induction rows with
  | nil => intro ln ld k t h; simp [navWalk] at h
  | cons r rs ih =>
    intro ln ld k t h
    simp only [navWalk] at h
    split at h <;> (try split at h) <;> (try split at h) <;>
    (cases k with
     | zero =>
       simp only [List.get?] at h
       injection h with h
       first
       | exact Or.inl ⟨0, r, Nat.le_refl 0, rfl, h⟩
       | exact Or.inr h
     | succ k' =>
       simp only [List.get?] at h
       rcases ih _ _ _ _ h with ⟨j, r', hj, hget, hsd⟩ | hld
       · exact Or.inl ⟨j + 1, r', Nat.succ_le_succ hj, hget, hsd⟩
       · first
         | exact Or.inl ⟨0, r, Nat.zero_le _, rfl, hld⟩
         | exact Or.inr hld)

/-- C10: an emitted disclosure date always comes from an observation of the
row's own product, located at or before the row in the chronologically
sorted walk, and when both dates are known it is never later than the
row's own reporting date. -/
theorem disclosure_provenance (df : List Row) (i : Nat) (t : Int)
    (h : (assignNav df).get? i = some (some t)) :
    ∃ c j, codeAt df i = some c ∧ codeAt df j = some c ∧ j < df.length ∧
      dateAt df j = some t ∧
      (sortedGroup df c).indexOf j ≤ (sortedGroup df c).indexOf i ∧
      (∀ cur, dateAt df i = some cur → t ≤ cur) := by
  have hi : i < df.length := by
    rcases List.get?_eq_some.mp h with ⟨hlen0, _⟩
    rw [assignNav_length] at hlen0
    exact hlen0
  cases hco : codeAt df i with
  | none =>
    rw [assignNav_get_nullcode df i hi hco] at h
    injection h with h
    cases h
  | some c =>
    rw [assignNav_get_group df i c hco] at h
    rcases navWalk_emit_src (groupRows df c) _ _ _ _ h with ⟨j', r', hj'le, hget', hsd'⟩ | hld
    · unfold groupRows at hget'
      rw [List.get?_map] at hget'
      cases hsg : (sortedGroup df c).get? j' with
      | none => rw [hsg] at hget'; cases hget'
      | some oj =>
        rw [hsg] at hget'
        have hojmem : oj ∈ sortedGroup df c := List.get?_mem hsg
        have hojcode : codeAt df oj = some c := (mem_sortedGroup df c oj).mp hojmem
        have hojlt : oj < df.length := codeAt_some_lt df oj c hojcode
        cases hrow : df.get? oj with
        | none =>
          unfold codeAt at hojcode
          rw [hrow] at hojcode
          cases hojcode
        | some row =>
          have hrr : r' = row := by
            injection hget' with hg
            have hg2 : (df.get? oj).getD default = r' := hg
            rw [hrow] at hg2
            exact hg2.symm
          have hdatej : dateAt df oj = some t := by
            unfold dateAt
            rw [hrow, ← hrr]
            exact hsd'
          have hidxj : (sortedGroup df c).indexOf oj = j' :=
            nodup_indexOf_of_get? _ _ _ (sortedGroup_nodup df c) hsg
          have himem : i ∈ sortedGroup df c := (mem_sortedGroup df c i).mpr hco
          have hposi : (sortedGroup df c).indexOf i < (sortedGroup df c).length :=
            List.indexOf_lt_length.mpr himem
          refine ⟨c, oj, rfl, hojcode, hojlt, hdatej, ?_, ?_⟩
          · rw [hidxj]; exact hj'le
          · intro cur hcur
            rcases Nat.lt_or_ge j' ((sortedGroup df c).indexOf i) with hlt | hge
            · have hsorted : List.Sorted (idxLe df) (sortedGroup df c) :=
                List.sorted_insertionSort _ _
              have hj'lt : j' < (sortedGroup df c).length := by
                rcases List.get?_eq_some.mp hsg with ⟨hl, _⟩
                exact hl
              have hrel := hsorted.rel_get_of_lt
                (a := ⟨j', hj'lt⟩) (b := ⟨(sortedGroup df c).indexOf i, hposi⟩) hlt
              have hgj : (sortedGroup df c).get ⟨j', hj'lt⟩ = oj := by
                have := List.get?_eq_get hj'lt
                rw [hsg] at this
                injection this with this
                exact this.symm
              have hgi : (sortedGroup df c).get
                  ⟨(sortedGroup df c).indexOf i, hposi⟩ = i :=
                List.indexOf_get _
              rw [hgj, hgi] at hrel
              unfold idxLe at hrel
              rw [hdatej, hcur] at hrel
              simpa [dLeB] using hrel
            · have heq : j' = (sortedGroup df c).indexOf i := Nat.le_antisymm hj'le hge
              have : oj = i := by
                have h1 := get?_indexOf_self _ _ himem
                rw [← heq, hsg] at h1
                exact Option.some.inj h1
              rw [this] at hdatej
              rw [hdatej] at hcur
              injection hcur with hcur
              omega
    · cases hld

/-- Witness for C10: on a two-product frame, the first row's emitted date 2
is the reporting date of an observation of its own product at or before it
in the sorted walk. -/
theorem disclosure_provenance_witness :
    ∃ c j, codeAt [(⟨some "A", none, some 2, .num 1⟩ : Row),
        ⟨some "B", some "开放式", some 5, .nan⟩,
        ⟨some "A", none, some 1, .num 2⟩] 0 = some c ∧
      codeAt [(⟨some "A", none, some 2, .num 1⟩ : Row),
        ⟨some "B", some "开放式", some 5, .nan⟩,
        ⟨some "A", none, some 1, .num 2⟩] j = some c ∧
      j < 3 ∧
      dateAt [(⟨some "A", none, some 2, .num 1⟩ : Row),
        ⟨some "B", some "开放式", some 5, .nan⟩,
        ⟨some "A", none, some 1, .num 2⟩] j = some 2 ∧
      (sortedGroup [(⟨some "A", none, some 2, .num 1⟩ : Row),
        ⟨some "B", some "开放式", some 5, .nan⟩,
        ⟨some "A", none, some 1, .num 2⟩] c).indexOf j ≤
        (sortedGroup [(⟨some "A", none, some 2, .num 1⟩ : Row),
          ⟨some "B", some "开放式", some 5, .nan⟩,
          ⟨some "A", none, some 1, .num 2⟩] c).indexOf 0 ∧
      (∀ cur, dateAt [(⟨some "A", none, some 2, .num 1⟩ : Row),
        ⟨some "B", some "开放式", some 5, .nan⟩,
        ⟨some "A", none, some 1, .num 2⟩] 0 = some cur → 2 ≤ cur) :=
  disclosure_provenance _ 0 2 (by decide)

/-! ## Lemmas about the left merge -/

theorem find?_eq_head_filter {α : Type} (p : α → Bool) (l : List α) :
    l.find? p = (l.filter p).head? := by
  induction l with
  | nil => rfl
  | cons a as ih =>
    by_cases h : p a = true
    · rw [List.find?_cons_of_pos _ h, List.filter_cons_of_pos h]
      rfl
    · rw [List.find?_cons_of_neg _ (by simpa using h),
        List.filter_cons_of_neg (by simpa using h), ih]

theorem filter_code_len_le (cat : List CatRow) (k : Option String)
    (h : (cat.map CatRow.code).Nodup) :
    (cat.filter (fun c => c.code == k)).length ≤ 1 := by
  induction cat with
  | nil => simp
  | cons c cs ih =>
    rw [List.map_cons, List.nodup_cons] at h
    rcases h with ⟨hnm, hnd⟩
    by_cases hp : (c.code == k) = true
    · rw [List.filter_cons, if_pos hp]
      have hnil : cs.filter (fun c' => c'.code == k) = [] := by
        rw [List.filter_eq_nil_iff]
        intro c' hc' hp'
        apply hnm
        have e1 : c.code = k := beq_iff_eq.mp hp
        have e2 : c'.code = k := beq_iff_eq.mp hp'
        rw [e1, ← e2]
        exact List.mem_map_of_mem _ hc'
      rw [hnil]
      simp
    · rw [List.filter_cons, if_neg hp]
      exact ih hnd

/-- Under unique catalog codes the left merge is pointwise: each valuation
row is paired with the first (unique) matching catalog row, if any. -/
theorem leftMerge_eq_map (nv : List NvRow) (cat : List CatRow)
    (h : (cat.map CatRow.code).Nodup) :
    leftMerge nv cat = nv.map (fun r => (r, cat.find? (fun c => c.code == r.code))) := by
  induction nv with
  | nil => rfl
  | cons r nv' ih =>
    unfold leftMerge
    unfold leftMerge at ih
    rw [List.flatMap_cons, List.map_cons, ih]
    have hblock : (match cat.filter (fun c => c.code == r.code) with
        | [] => [(r, (none : Option CatRow))]
        | m :: ms => (m :: ms).map (fun c => (r, some c))) =
        [(r, cat.find? (fun c => c.code == r.code))] := by
      cases hf : cat.filter (fun c => c.code == r.code) with
      | nil =>
        rw [find?_eq_head_filter, hf]
        rfl
      | cons m ms =>
        have hlen := filter_code_len_le cat r.code h
        rw [hf] at hlen
        have hms : ms = [] := by
          cases ms with
          | nil => rfl
          | cons x xs => simp at hlen
        subst hms
        rw [find?_eq_head_filter, hf]
        rfl
    rw [hblock]
    rfl

/-- C8: the merge is a left join on exact `产品代码` equality: with unique
catalog codes, the output has exactly one row per valuation row, in input
order; position `i` pairs valuation row `i` with its unique catalog match,
and a row whose code has no catalog match is retained with `none` catalog
fields. -/
theorem left_merge_unique (nv : List NvRow) (cat : List CatRow)
    (h : (cat.map CatRow.code).Nodup) :
    (leftMerge nv cat).length = nv.length ∧
    (∀ i r, nv.get? i = some r →
      (leftMerge nv cat).get? i = some (r, cat.find? (fun c => c.code == r.code))) ∧
    (∀ i r, nv.get? i = some r →
      (∀ c ∈ cat, (c.code == r.code) = false) →
      (leftMerge nv cat).get? i = some (r, none)) := by
  rw [leftMerge_eq_map nv cat h]
  refine ⟨List.length_map _ _, ?_, ?_⟩
  · intro i r hr
    rw [List.get?_map, hr]
    rfl
  · intro i r hr hnone
    rw [List.get?_map, hr]
    have : cat.find? (fun c => c.code == r.code) = none :=
      List.find?_eq_none.mpr (fun c hc => by rw [hnone c hc]; exact Bool.false_ne_true)
    simp [this]

/-- Witness for C8: two valuation rows against a two-product catalog; the
matched row pairs with its catalog entry, the unmatched row survives with
null catalog fields. -/
theorem left_merge_unique_witness :
    (leftMerge [(⟨some "A", some 1, some 1⟩ : NvRow), ⟨some "X", some 2, some 2⟩]
      [(⟨some "A", some "开放式", some 0⟩ : CatRow), ⟨some "B", none, none⟩]).length = 2 ∧
    (leftMerge [(⟨some "A", some 1, some 1⟩ : NvRow), ⟨some "X", some 2, some 2⟩]
      [(⟨some "A", some "开放式", some 0⟩ : CatRow), ⟨some "B", none, none⟩]).get? 1 =
      some (⟨some "X", some 2, some 2⟩, none) := by
  have h := left_merge_unique
    [(⟨some "A", some 1, some 1⟩ : NvRow), ⟨some "X", some 2, some 2⟩]
    [(⟨some "A", some "开放式", some 0⟩ : CatRow), ⟨some "B", none, none⟩]
    (by decide)
  exact ⟨h.1, h.2.2 1 ⟨some "X", some 2, some 2⟩ (by decide) (by decide)⟩

/-! ## `calc_annualized_return`: the negative-base and unknown-date paths -/

/-- C2 evidence: at 730 elapsed days the exponent `365 / days` is the
non-integral `1/2`, and Python 3 raises a negative float base to a
fractional power by returning a *complex* number, not by raising an
exception — so `calc_annualized_return` returns a complex value, not
`None`; with an unknown (`NaT`) date, `(NaT).days` is float `nan`,
`nan <= 0` is `False` and `pow(1.0, nan) = 1.0`, so the function returns
`0.0`, again not `None`.  The claim's guarded cases that do hold
(`days <= 0`, null unit value) are evaluated alongside. -/
theorem annualized_return_negative_base :
    calcAnnualizedReturn ⟨some 730, some 0, .num (-1)⟩ = .complexNum ∧
    RetVal.complexNum ≠ RetVal.none ∧
    calcAnnualizedReturn ⟨none, some 0, .num 1⟩ = .realLit 0 ∧
    RetVal.realLit 0 ≠ RetVal.none ∧
    calcAnnualizedReturn ⟨some 0, some 0, .num 1⟩ = .none ∧
    calcAnnualizedReturn ⟨some 365, some 0, .null⟩ = .none ∧
    calcAnnualizedReturn ⟨some 365, some 0, .num (mkRat 11 10)⟩ =
      .powExpr (mkRat 11 10) 1 := by
  decide

/-! ## Lemmas about the guarded column transforms and the final selection -/

theorem getColE_ok_iff (f : Frame) (n : String) :
    (∃ c, getColE f n = .ok c) ↔ hasCol f n = true := by
  unfold getColE lookupCol hasCol
  rw [List.any_eq_true]
  constructor
  · rintro ⟨c, hc⟩
    cases hf : f.find? (fun p => p.1 == n) with
    | none =>
      rw [hf] at hc
      cases hc
    | some p =>
      have hsat := List.find?_some hf
      have hmem := List.mem_of_find?_eq_some hf
      exact ⟨p, hmem, hsat⟩
  · rintro ⟨p, hmem, hp⟩
    cases hf : f.find? (fun q => q.1 == n) with
    | none =>
      rw [List.find?_eq_none] at hf
      exact absurd hp (hf p hmem)
    | some q =>
      exact ⟨q.2, rfl⟩

theorem guardedMapCol_ok (fn : Cell → Cell) (f : Frame) (n : String) :
    ∃ g, guardedMapCol fn f n = .ok g := by
  unfold guardedMapCol
  by_cases h : hasCol f n = true
  · rw [h]
    simp only [if_true]
    rcases (getColE_ok_iff f n).mpr h with ⟨c, hc⟩
    rw [hc]
    exact ⟨setCol f n (c.map fn), rfl⟩
  · rw [Bool.not_eq_true] at h
    rw [h]
    exact ⟨f, rfl⟩

theorem foldlM_guarded_ok (fn : Cell → Cell) (ns : List String) : ∀ f : Frame,
    ∃ g, ns.foldlM (guardedMapCol fn) f = .ok g := by
  induction ns with
  | nil => intro f; exact ⟨f, rfl⟩
  | cons n ns' ih =>
    intro f
    rcases guardedMapCol_ok fn f n with ⟨g1, hg1⟩
    rcases ih g1 with ⟨g2, hg2⟩
    refine ⟨g2, ?_⟩
    rw [List.foldlM_cons, hg1]
    simpa using hg2

theorem selectCols_ok_iff (ns : List String) : ∀ f : Frame,
    (∃ g, selectCols ns f = .ok g) ↔ ∀ n ∈ ns, hasCol f n = true := by
  induction ns with
  | nil =>
    intro f
    constructor
    · intro _ n hn
      cases hn
    · intro _
      exact ⟨[], rfl⟩
  | cons n ns' ih =>
    intro f
    unfold selectCols
    unfold selectCols at ih
    rw [List.mapM_cons]
    constructor
    · rintro ⟨g, hg⟩
      cases hc : getColE f n with
      | error e =>
        rw [hc] at hg
        cases hg
      | ok c =>
        rw [hc] at hg
        cases hr : ns'.mapM (fun m => (getColE f m).map (fun cc => (m, cc))) with
        | error e =>
          rw [hr] at hg
          cases hg
        | ok gs =>
          intro m hm
          rcases List.mem_cons.mp hm with rfl | hm'
          · exact (getColE_ok_iff f m).mp ⟨c, hc⟩
          · exact ((ih f).mp ⟨gs, hr⟩) m hm'
    · intro hall
      obtain ⟨c, hc⟩ := (getColE_ok_iff f n).mpr (hall n (List.mem_cons_self n ns'))
      obtain ⟨g', hg'⟩ := (ih f).mpr (fun m hm => hall m (List.mem_cons_of_mem n hm))
      refine ⟨(n, c) :: g', ?_⟩
      rw [hc, hg']
      rfl

/-- C3 counterexample: a merged frame that carries every expected field
except `产品名称`; the final field selection (line 158) references the
absent field unconditionally and raises `KeyError` rather than skipping
it — refuting the claim that every downstream transform referencing an
absent field is skipped by a presence check. -/
theorem absent_field_selection_cex :
    hasCol ((finalColumns.filter (fun n => !(n == "产品名称"))).map
      (fun n => (n, ([] : List Cell)))) "产品名称" = false ∧
    selectCols finalColumns ((finalColumns.filter (fun n => !(n == "产品名称"))).map
      (fun n => (n, ([] : List Cell)))) = .error "产品名称" := by
  constructor
  · decide
  · decide

/-- C3 amended: the per-column transforms that the script guards with a
presence check — the hundred-million scaling loop and the date-formatting
loop — never fail, for every frame; the final field selection, however, is
not guarded: it succeeds exactly when every selected field is present, and
raises (`.error`) otherwise. -/
theorem absent_field_transforms_amended :
    (∀ f : Frame, ∃ g, scaleLoopE f = .ok g) ∧
    (∀ f : Frame, ∃ g, fmtLoopE f = .ok g) ∧
    (∀ f : Frame, (∃ g, selectCols finalColumns f = .ok g) ↔
      ∀ n ∈ finalColumns, hasCol f n = true) :=
  ⟨fun f => foldlM_guarded_ok scaleCell scaleNames f,
   fun f => foldlM_guarded_ok fmtDateCell fmtNames f,
   fun f => selectCols_ok_iff finalColumns f⟩

/-- Witness for C3 (amended): on a frame carrying all expected fields the
guarded loops and the selection all succeed. -/
theorem absent_field_transforms_amended_witness :
    (∃ g, scaleLoopE (finalColumns.map (fun n => (n, ([] : List Cell)))) = .ok g) ∧
    (∃ g, fmtLoopE (finalColumns.map (fun n => (n, ([] : List Cell)))) = .ok g) ∧
    (∃ g, selectCols finalColumns
      (finalColumns.map (fun n => (n, ([] : List Cell)))) = .ok g) :=
  ⟨absent_field_transforms_amended.1 _,
   absent_field_transforms_amended.2.1 _,
   (absent_field_transforms_amended.2.2 _).mpr (by decide)⟩
